import Mathlib

/-!
Verification of the LaTeX note exporter (`latexbiport/latexexport.py`).

Strings are modelled as `List Char`.  Python's `str.replace` and the
`re.sub` calls of the source are modelled by executable scanners that walk
the character list left to right, exactly mirroring the scanning behaviour
of the corresponding Python operation (leftmost match, lazy or greedy
quantifiers resolved as the concrete pattern dictates, scanning resuming
after the end of each match).  Scanners that consume a variable number of
characters per step are written with an explicit fuel argument (fuel is
initialised with the length of the input, which is always sufficient since
every step consumes at least one character); this keeps every definition
structurally recursive and hence computable by the kernel.
-/

/-- Characters of a string literal. -/
def chars (s : String) : List Char := s.toList

/-- The four-space indentation unit (`TAB` in the source). -/
def TAB : List Char := chars "    "

/-- A single newline character, as a one-element string. -/
def nlL : List Char := ['\n']

/-- Python `\s` / `str.isspace` on the ASCII range (the source only ever
feeds ASCII whitespace to these tests). -/
def pySpaceB (c : Char) : Bool :=
  c == ' ' || c == '\t' || c == '\n' || c == '\r' || c == '\x0b' || c == '\x0c'

/-- Fuelled core of Python `str.replace` for a nonempty pattern `p`:
replace every non-overlapping occurrence of `p` by `r`, scanning left to
right. -/
def replF (p r : List Char) : Nat → List Char → List Char
  | 0, s => s
  | _ + 1, [] => []
  | f + 1, c :: cs =>
    if p.isPrefixOf (c :: cs) then r ++ replF p r f ((c :: cs).drop p.length)
    else c :: replF p r f cs

/-- Python `text.replace(p, r)` for a nonempty pattern `p`. -/
def pyReplace (p r s : List Char) : List Char := replF p r s.length s

/-- Substring test: Python `text.find(p) != -1`. -/
def occursIn (p : List Char) : List Char → Bool
  | [] => p.isEmpty
  | c :: cs => p.isPrefixOf (c :: cs) || occursIn p cs

/-- One `str.replace` pass for a `(pattern, replacement)` table entry. -/
def stepTbl (s : List Char) (pr : List Char × List Char) : List Char :=
  pyReplace pr.1 pr.2 s

/-- Apply a list of `(pattern, replacement)` pairs in order, each as a full
`str.replace` pass (the `for k, v in htmldict.items()` loops of the
source). -/
def applyTable (tbl : List (List Char × List Char)) (s : List Char) : List Char :=
  tbl.foldl stepTbl s

/-- The `htmldict` of `replace_line_breaks`, in Python dict insertion
order. -/
def htmldict : List (List Char × List Char) :=
  [(chars "<br>", nlL), (chars "<br />", nlL), (chars "<div>", nlL),
   (chars "</div>", []), (chars "&nbsp;", [' '])]

/-- Model of `replace_line_breaks`: delete literal newlines, then apply the
`htmldict` replacements in order. -/
def replace_line_breaks (s : List Char) : List Char :=
  applyTable htmldict (pyReplace nlL [] s)

/-- The entity dictionary of `convert_html_to_latex`, in insertion
order. -/
def entdict : List (List Char × List Char) :=
  [(chars "&amp;", ['&']), (chars "&lt;", ['<']), (chars "&gt;", ['>'])]

/-- The verbatim-zone opening sentinel `[latex]`. -/
def latexTok : List Char := chars "[latex]"

/-- The verbatim-zone closing sentinel `[/latex]`. -/
def latexCloseTok : List Char := chars "[/latex]"

/-- Fuelled scanner for `re.sub("\n*\[latex\]", "", text)`: a match at a
position is a (possibly empty) run of newlines followed immediately by
`[latex]`; the greedy `\n*` can only succeed by consuming the whole run,
since `[latex]` does not start with a newline. -/
def subLatexOpenF : Nat → List Char → List Char
  | 0, s => s
  | _ + 1, [] => []
  | f + 1, c :: cs =>
    if latexTok.isPrefixOf ((c :: cs).drop (((c :: cs).takeWhile (fun d => d == '\n')).length) ) then
      subLatexOpenF f ((c :: cs).drop (((c :: cs).takeWhile (fun d => d == '\n')).length + latexTok.length))
    else c :: subLatexOpenF f cs

/-- Model of `re.sub("\n*\[latex\]", "", text)`. -/
def subLatexOpen (s : List Char) : List Char := subLatexOpenF s.length s

/-- Fuelled scanner for `re.sub("\[/latex\]\n*", "", text)`: the literal
`[/latex]` followed by the (greedy) run of newlines after it. -/
def subLatexCloseF : Nat → List Char → List Char
  | 0, s => s
  | _ + 1, [] => []
  | f + 1, c :: cs =>
    if latexCloseTok.isPrefixOf (c :: cs) then
      subLatexCloseF f
        (((c :: cs).drop latexCloseTok.length).dropWhile (fun d => d == '\n'))
    else c :: subLatexCloseF f cs

/-- Model of `re.sub("\[/latex\]\n*", "", text)`. -/
def subLatexClose (s : List Char) : List Char := subLatexCloseF s.length s

/-- Position of the first `'>'` in the list, scanning over characters
other than `'\n'` (the lazy `.*?>` tail of `<ul.*?>`-style patterns: `.`
does not match a newline, the lazy star stops at the first `'>'`). -/
def findGt : List Char → Option Nat
  | [] => none
  | c :: cs => if c == '>' then some 0 else if c == '\n' then none else (findGt cs).map (· + 1)

/-- Fuelled scanner for `re.sub(pre ++ ".*?>", rep, text)` where `pre` is a
literal such as `<ul` (patterns `<ul.*?>`, `<ol.*?>`, `<li.*?>`). -/
def subTagOpenF (pre rep : List Char) : Nat → List Char → List Char
  | 0, s => s
  | _ + 1, [] => []
  | f + 1, c :: cs =>
    if pre.isPrefixOf (c :: cs) then
      match findGt ((c :: cs).drop pre.length) with
      | some m => rep ++ subTagOpenF pre rep f ((c :: cs).drop (pre.length + m + 1))
      | none => c :: subTagOpenF pre rep f cs
    else c :: subTagOpenF pre rep f cs

/-- Model of `re.sub(pre ++ ".*?>", rep, text)` for a literal `pre`. -/
def subTagOpen (pre rep s : List Char) : List Char := subTagOpenF pre rep s.length s

/-- Number of non-`'<'`-constrained characters before the first occurrence
of the closing literal `cl`, scanning over characters other than `'\n'`
(the lazy `(.*?)` of `<b>(.*?)</b>`-style patterns). -/
def findClose (cl : List Char) : List Char → Option Nat
  | [] => none
  | c :: cs =>
    if cl.isPrefixOf (c :: cs) then some 0
    else if c == '\n' then none
    else (findClose cl cs).map (· + 1)

/-- Fuelled scanner for `re.sub(op ++ "(.*?)" ++ cl, pre ++ "\1" ++ post, text)`
(the bold/italic/underline/subscript/superscript rules). -/
def subPairF (op cl pre post : List Char) : Nat → List Char → List Char
  | 0, s => s
  | _ + 1, [] => []
  | f + 1, c :: cs =>
    if op.isPrefixOf (c :: cs) then
      match findClose cl ((c :: cs).drop op.length) with
      | some m =>
          pre ++ ((c :: cs).drop op.length).take m ++ post ++
            subPairF op cl pre post f ((c :: cs).drop (op.length + m + cl.length))
      | none => c :: subPairF op cl pre post f cs
    else c :: subPairF op cl pre post f cs

/-- Model of `re.sub(op ++ "(.*?)" ++ cl, pre ++ "\1" ++ post, text)`. -/
def subPair (op cl pre post s : List Char) : List Char := subPairF op cl pre post s.length s

/-- Index of the last `'\n'` in the list, if any. -/
def lastNlIdx : List Char → Option Nat
  | [] => none
  | c :: cs =>
    match lastNlIdx cs with
    | some j => some (j + 1)
    | none => if c == '\n' then some 0 else none

/-- Fuelled scanner for `re.sub("\n\s*\n+", rep, text)`: a match starts at
a newline; the greedy `\s*` backtracks to the last newline of the
following whitespace run, and `\n+` then consumes exactly that newline
(all later characters of the run are non-newline whitespace). -/
def subDoubleNlF (rep : List Char) : Nat → List Char → List Char
  | 0, s => s
  | _ + 1, [] => []
  | f + 1, c :: cs =>
    if c == '\n' then
      match lastNlIdx (cs.takeWhile pySpaceB) with
      | some j => rep ++ subDoubleNlF rep f (cs.drop (j + 1))
      | none => c :: subDoubleNlF rep f cs
    else c :: subDoubleNlF rep f cs

/-- Model of `re.sub("\n\s*\n+", rep, text)`. -/
def subDoubleNl (rep s : List Char) : List Char := subDoubleNlF rep s.length s

/-- Helper for `findTagEnd`: scan for a closing `'>'`, over characters
other than `'<'`, having already consumed `m` class characters. -/
def findTagEndGo (m : Nat) : List Char → Option Nat
  | [] => none
  | d :: ds => if d == '>' then some m else if d == '<' then none else findTagEndGo (m + 1) ds

/-- For the tail of `<[^<]+?>` after the opening `'<'`: the number `m ≥ 1`
of `[^<]` characters consumed before the closing `'>'`, if the lazy match
succeeds. -/
def findTagEnd : List Char → Option Nat
  | [] => none
  | c :: cs => if c == '<' then none else findTagEndGo 1 cs

/-- Fuelled scanner for `re.sub("<[^<]+?>", "", text)`. -/
def subStripTagsF : Nat → List Char → List Char
  | 0, s => s
  | _ + 1, [] => []
  | f + 1, c :: cs =>
    if c == '<' then
      match findTagEnd cs with
      | some m => subStripTagsF f ((c :: cs).drop (1 + m + 1))
      | none => c :: subStripTagsF f cs
    else c :: subStripTagsF f cs

/-- Model of `re.sub("<[^<]+?>", "", text)`. -/
def subStripTags (s : List Char) : List Char := subStripTagsF s.length s

/-- Model of `convert_html_to_latex`: entity decoding, sentinel stripping, tag
rewriting, blank-line collapsing and stripping of remaining tags, in the
exact order of the source. -/
def convert_html_to_latex (t : List Char) : List Char :=
  let t := applyTable entdict t
  let t := subLatexOpen t
  let t := subLatexClose t
  let t := subTagOpen (chars "<ul") (chars "\\begin\x7bitemize\x7d" ++ nlL) t
  let t := pyReplace (chars "</ul>") (chars "\\end\x7bitemize\x7d") t
  let t := subTagOpen (chars "<ol") (chars "\\begin\x7benumerate\x7d" ++ nlL) t
  let t := pyReplace (chars "</ol>") (chars "\\end\x7benumerate\x7d") t
  let t := subTagOpen (chars "<li") (chars "\\item ") t
  let t := pyReplace (chars "</li>") nlL t
  let t := subPair (chars "<b>") (chars "</b>") (chars "\\textbf\x7b") (chars "\x7d") t
  let t := subPair (chars "<i>") (chars "</i>") (chars "\\textit\x7b") (chars "\x7d") t
  let t := subPair (chars "<u>") (chars "</u>") (chars "\\underline\x7b") (chars "\x7d") t
  let t := subPair (chars "<sub>") (chars "</sub>") (chars "\\textsubscript\x7b") (chars "\x7d") t
  let t := subPair (chars "<sup>") (chars "</sup>") (chars "\\textsuperscript\x7b") (chars "\x7d") t
  let t := subDoubleNl nlL t
  subStripTags t

/-- Python `text.strip()` (ASCII whitespace, as above). -/
def pyStrip (s : List Char) : List Char :=
  ((s.dropWhile pySpaceB).reverse.dropWhile pySpaceB).reverse

/-- Model of `strip_new_lines`: collapse blank-line runs to a single blank line,
then strip surrounding whitespace. -/
def strip_new_lines (s : List Char) : List Char :=
  pyStrip (subDoubleNl (chars "\n\n") s)

/-- The character class of `escape_latex_chars`. -/
def specialB (c : Char) : Bool :=
  ['#', '$', '%', '^', '&', '_', '\x7d', '\x7b', '~'].contains c

/-- Model of `escape_latex_chars`: prefix every special or command character with a
backslash (the pattern is a single-character class, so the substitution is
an independent per-character rewrite). -/
def escape_latex_chars (s : List Char) : List Char :=
  s.foldr (fun c acc => if specialB c then '\\' :: c :: acc else c :: acc) []

/-- Decimal digits of a natural number (fuelled; `str(note_id)` for the
nonnegative ids the database supplies). -/
def natStrF : Nat → Nat → List Char
  | 0, _ => []
  | f + 1, n => if n < 10 then [Nat.digitChar n] else natStrF f (n / 10) ++ [Nat.digitChar (n % 10)]

/-- Model of `str(n)` for a natural number. -/
def natStr (n : Nat) : List Char := natStrF (n + 1) n

/-- The one-line verbatim field marker of the `[latex]` branch. -/
def xfieldLine (b : List Char) : List Char :=
  TAB ++ chars "\\xfield\x7b" ++ b ++ chars "\x7d"

/-- The one-line plain field marker of the plain-text branch. -/
def xplainLine (b : List Char) : List Char :=
  TAB ++ chars "\\xplain\x7b" ++ b ++ chars "\x7d"

/-- Double indentation of a multi-line body: two extra levels before the
first line and after every newline (`TAB + TAB + field.replace("\n", "\n" + TAB + TAB)`). -/
def indentBody (b : List Char) : List Char :=
  TAB ++ TAB ++ pyReplace nlL (nlL ++ TAB ++ TAB) b

/-- The multi-line verbatim block of the `[latex]` branch. -/
def fieldBlock (b : List Char) : List Char :=
  TAB ++ chars "\\begin\x7bfield\x7d" ++ nlL ++ indentBody (strip_new_lines b) ++ nlL ++
    TAB ++ chars "\\end\x7bfield\x7d"

/-- The multi-line plain block of the plain-text branch. -/
def plainBlock (b : List Char) : List Char :=
  TAB ++ chars "\\begin\x7bplain\x7d" ++ nlL ++ indentBody (strip_new_lines b) ++ nlL ++
    TAB ++ chars "\\end\x7bplain\x7d"

/-- The per-field rendering of the export loop: normalise line breaks,
then branch on the presence of the `[latex]` sentinel and on whether the
(in the verbatim case: converted) field is a single line. -/
def renderField (raw : List Char) : List Char :=
  if occursIn latexTok (replace_line_breaks raw) then
    if (convert_html_to_latex (replace_line_breaks raw)).contains '\n' then
      fieldBlock (convert_html_to_latex (replace_line_breaks raw))
    else
      xfieldLine (convert_html_to_latex (replace_line_breaks raw))
  else
    if (replace_line_breaks raw).contains '\n' then
      plainBlock (convert_html_to_latex (replace_line_breaks raw))
    else
      xplainLine (replace_line_breaks raw)

/-- The block-begin marker line. -/
def beginNote : List Char := chars "\\begin\x7bnote\x7d"

/-- The block-end marker line (with the trailing newline the source
appends to it). -/
def endNoteLine : List Char := chars "\\end\x7bnote\x7d" ++ nlL

/-- The empty one-line plain field marker removed by the trailing trim. -/
def emptyMarker : List Char := TAB ++ chars "\\xplain\x7b\x7d"

/-- The trailing trim: the `while`/`pop` loop of the source, i.e. drop
the maximal run of empty markers from the end of the line list. -/
def trimTrailingEmpty (l : List (List Char)) : List (List Char) :=
  (l.reverse.dropWhile (fun x => x == emptyMarker)).reverse

/-- The identifier line (`include_guid` branch): the numeric note id run
through `escape_latex_chars`, wrapped as an unindented `\xplain` field. -/
def idLine (noteId : Nat) : List Char :=
  chars "\\xplain\x7b" ++ escape_latex_chars (natStr noteId) ++ chars "\x7d"

/-- Exporter options relevant to block assembly. -/
structure Opts where
  include_guid : Bool
  include_tags : Bool

/-- One fetched record: `(guid, note_id, flds, tags, notetype_id)`, with
the fields blob already split by the collaborator (`split_fields`). -/
structure Note where
  guid : List Char
  noteId : Nat
  flds : List (List Char)
  tags : List Char
  mid : Nat

/-- A notetype's LaTeX schema (`model["latexPre"]`, `model["latexPost"]`). -/
structure Model where
  latexPre : List Char
  latexPost : List Char

/-- The lines of one note's block, in source order: begin marker, optional
identifier line, rendered fields, trailing-empty trim, optional tags line,
end marker. -/
def noteLines (opts : Opts) (n : Note) : List (List Char) :=
  let l1 : List (List Char) :=
    if opts.include_guid then [beginNote, idLine n.noteId] else [beginNote]
  let l2 := l1 ++ n.flds.map renderField
  let l3 := trimTrailingEmpty l2
  let l4 :=
    if opts.include_tags && !(pyStrip n.tags).isEmpty then
      l3 ++ [TAB ++ chars "\\tags\x7b" ++ pyStrip n.tags ++ chars "\x7d"]
    else l3
  l4 ++ [endNoteLine]

/-- Model of `"\n".join(lines)`. -/
def joinSep (sep : List Char) : List (List Char) → List Char
  | [] => []
  | [x] => x
  | x :: y :: xs => x ++ sep ++ joinSep sep (y :: xs)

/-- One note's assembled block string (an element of `notes`). -/
def noteStr (opts : Opts) (n : Note) : List Char := joinSep nlL (noteLines opts n)

/-- The encoding-declaration comment line at the head of the output. -/
def encLine : List Char := chars "% -*- coding: utf-8 -*-" ++ nlL

/-- The export loop: accumulate the note blocks in fetch order, rebinding
`model` to the schema of each record in turn (so that after the loop the
variable holds the schema of the record processed last; before the first
iteration it is unbound, modelled as `none`). -/
def exportFold (models : Nat → Model) (opts : Opts) (records : List Note) :
    List (List Char) × Option Model :=
  records.foldl (fun acc r => (acc.1 ++ [noteStr opts r], some (models r.mid))) ([], none)

/-- The error a dereference of the unbound loop variable raises when no
record was fetched. -/
def unboundErr : List Char :=
  chars "UnboundLocalError: local variable referenced before assignment"

/-- Model of `export_note_latex`: assemble the document string and the processed
count, or fail when the schema variable was never bound.  The document is
built wholly in memory and only then written once to the output path; the
embedding therefore returns the document together with the reported
count. -/
def export_note_latex (models : Nat → Model) (opts : Opts) (records : List Note) :
    Except (List Char) (List Char × Nat) :=
  match exportFold models opts records with
  | (_, none) => .error unboundErr
  | (notes, some model) =>
      .ok (encLine ++ model.latexPre ++ nlL ++ joinSep nlL notes ++ nlL ++ model.latexPost,
        notes.length)

/-- The selection criterion (`ExportLimit`): the two supported variants,
plus a constructor standing for every other variant of the union (the
source tests the exact runtime type, so anything else falls through to the
`raise`). -/
inductive ExportLimit where
  | deckIdLimit (deck_id : Int)
  | noteIdsLimit (note_ids : List Int)
  | otherLimit

/-- Model of `str(i)` for an integer. -/
def intStr (i : Int) : List Char :=
  if i < 0 then '-' :: natStr i.natAbs else natStr i.toNat

/-- Python `repr(tuple(ids))`, as interpolated by the f-string of the
note-ids query. -/
def pyTupleRepr (l : List Int) : List Char :=
  match l with
  | [] => chars "()"
  | [x] => chars "(" ++ intStr x ++ chars ",)"
  | x :: xs =>
      chars "(" ++ intStr x ++ (xs.map (fun y => chars ", " ++ intStr y)).flatten ++ chars ")"

/-- The error message of the unsupported-criterion branch. -/
def dbErr : List Char :=
  chars "ExportLimit does neither have type DeckIdLimit nor NoteIdsLimit"

/-- Model of `db_query`: build the SQL text for the two supported criterion kinds,
raise (model: return `.error`) for every other kind. -/
def db_query : ExportLimit → Except (List Char) (List Char)
  | .deckIdLimit did =>
      .ok (chars "SELECT n.guid, n.id, n.flds, n.tags, n.mid FROM notes n JOIN cards c ON n.id = c.nid WHERE c.did IN (SELECT id FROM decks WHERE name LIKE (SELECT name FROM decks WHERE id=" ++
        intStr did ++ chars ") || '%')")
  | .noteIdsLimit ids =>
      .ok (chars "SELECT n.guid, n.id, n.flds, n.tags, n.mid FROM notes n JOIN cards c ON n.id = c.nid WHERE n.id IN " ++
        pyTupleRepr ids)
  | .otherLimit => .error dbErr

/-- Whether a criterion is one of the two supported variants. -/
def supportedLimit : ExportLimit → Bool
  | .deckIdLimit _ => true
  | .noteIdsLimit _ => true
  | .otherLimit => false

/-! ### Characteristic equations of `pyReplace` -/

/-- The result of `replF` does not depend on the fuel, as long as the fuel
is at least the length of the input and the pattern is nonempty. -/
theorem replF_fuel (p r : List Char) (hp : p ≠ []) :
    ∀ f₁ f₂ s, s.length ≤ f₁ → s.length ≤ f₂ → replF p r f₁ s = replF p r f₂ s := by
  intro f₁
  induction f₁ with
  | zero =>
    intro f₂ s h₁ _
    have hs : s = [] := List.eq_nil_of_length_eq_zero (Nat.le_zero.mp h₁)
    subst hs
    cases f₂ <;> rfl
  | succ f₁ ih =>
    intro f₂ s h₁ h₂
    cases s with
    | nil => cases f₂ <;> rfl
    | cons c cs =>
      cases f₂ with
      | zero => simp at h₂
      | succ f₂ =>
        have hplen : 0 < p.length := List.length_pos.mpr hp
        have h₁' : cs.length + 1 ≤ f₁ + 1 := by simpa using h₁
        have h₂' : cs.length + 1 ≤ f₂ + 1 := by simpa using h₂
        simp only [replF]
        by_cases hpre : p.isPrefixOf (c :: cs) = true
        · rw [if_pos hpre, if_pos hpre]
          have hlen : ((c :: cs).drop p.length).length ≤ f₁ := by
            simp only [List.length_drop, List.length_cons]
            omega
          have hlen₂ : ((c :: cs).drop p.length).length ≤ f₂ := by
            simp only [List.length_drop, List.length_cons]
            omega
          rw [ih f₂ _ hlen hlen₂]
        · rw [if_neg hpre, if_neg hpre]
          rw [ih f₂ _ (by omega) (by omega)]

/-- Model of `pyReplace` on the empty string. -/
theorem pyReplace_nil (p r : List Char) : pyReplace p r [] = [] := rfl

/-- Model of `pyReplace` when the (nonempty) pattern matches at the head: emit the
replacement and continue after the consumed occurrence. -/
theorem pyReplace_pos {p : List Char} (r : List Char) {s : List Char} (hp : p ≠ [])
    (h : p <+: s) : pyReplace p r s = r ++ pyReplace p r (s.drop p.length) := by
  cases s with
  | nil =>
    exact absurd (List.prefix_nil.mp h) hp
  | cons c cs =>
    have hpre : p.isPrefixOf (c :: cs) = true := by
      simpa [ List.isPrefixOf_iff_prefix] using h
    have hplen : 0 < p.length := List.length_pos.mpr hp
    show replF p r (cs.length + 1) (c :: cs) = _
    simp only [replF, if_pos hpre]
    congr 1
    apply replF_fuel p r hp
    · simp only [List.length_drop, List.length_cons]
      omega
    · exact Nat.le_refl _

/-- Model of `pyReplace` when the pattern does not match at the head: keep the head
character and continue on the tail. -/
theorem pyReplace_neg {p : List Char} (r : List Char) {c : Char} {cs : List Char}
    (h : ¬ p <+: (c :: cs)) : pyReplace p r (c :: cs) = c :: pyReplace p r cs := by
  have hpre : p.isPrefixOf (c :: cs) = false := by
    cases hb : p.isPrefixOf (c :: cs) with
    | false => rfl
    | true => exact absurd ( List.isPrefixOf_iff_prefix.mp hb) h
  show replF p r (cs.length + 1) (c :: cs) = _
  simp only [replF, hpre, Bool.false_eq_true, if_false]
  rfl

/-! ### `occursIn` basic facts -/

/-- Absence of an occurrence splits over a cons cell. -/
theorem occursIn_cons_false {p : List Char} {c : Char} {cs : List Char}
    (h : occursIn p (c :: cs) = false) : ¬ p <+: (c :: cs) ∧ occursIn p cs = false := by
  simp only [occursIn, Bool.or_eq_false_iff] at h
  refine ⟨?_, h.2⟩
  intro hpre
  rw [(by simpa [ List.isPrefixOf_iff_prefix] using hpre : p.isPrefixOf (c :: cs) = true)] at h
  exact Bool.true_eq_false.mp h.1

/-- A match at the head is an occurrence. -/
theorem occursIn_of_pref {p s : List Char} (h : p <+: s) : occursIn p s = true := by
  cases s with
  | nil =>
    have : p = [] := List.prefix_nil.mp h
    subst this; rfl
  | cons c cs =>
    simp only [occursIn, Bool.or_eq_true]
    exact Or.inl (by simpa [ List.isPrefixOf_iff_prefix] using h)

/-- Absence of an occurrence passes to any suffix obtained by `drop`. -/
theorem occursIn_false_drop {p : List Char} :
    ∀ (s : List Char) (n : Nat), occursIn p s = false → occursIn p (s.drop n) = false := by
  intro s
  induction s with
  | nil => intro n h; simpa using h
  | cons c cs ih =>
    intro n h
    cases n with
    | zero => simpa using h
    | succ n => exact ih n (occursIn_cons_false h).2

/-- A pattern with no occurrence is left alone by `pyReplace`. -/
theorem pyReplace_of_not_occurs {p r : List Char} :
    ∀ s, occursIn p s = false → pyReplace p r s = s := by
  intro s
  induction s with
  | nil => intro _; rfl
  | cons c cs ih =>
    intro h
    obtain ⟨h1, h2⟩ := occursIn_cons_false h
    rw [pyReplace_neg r h1, ih h2]

/-- Bool-level consequence of a refuted match. -/
theorem isPrefixOf_false_of_not {p s : List Char} (h : ¬ p <+: s) : p.isPrefixOf s = false := by
  cases hb : p.isPrefixOf s with
  | false => rfl
  | true => exact absurd ( List.isPrefixOf_iff_prefix.mp hb) h

/-- If the replacement character `b` does not occur in `t`, then a prefix
`t` of the replaced string was already a prefix of the original: the
replaced string agrees with the original up to the first match, where it
carries a `b`. -/
theorem pref_of_pref_pyReplace {p : List Char} {b : Char} (hp : p ≠ []) :
    ∀ (n : Nat) (s t : List Char), s.length ≤ n → b ∉ t →
      t <+: pyReplace p [b] s → t <+: s := by
  intro n
  induction n with
  | zero =>
    intro s t hs _ ht
    have hnil : s = [] := List.eq_nil_of_length_eq_zero (Nat.le_zero.mp hs)
    subst hnil
    simpa [pyReplace_nil] using ht
  | succ n ih =>
    intro s t hs hb ht
    cases s with
    | nil => simpa [pyReplace_nil] using ht
    | cons c cs =>
      have hplen : 0 < p.length := List.length_pos.mpr hp
      by_cases hpre : p <+: (c :: cs)
      · rw [pyReplace_pos [b] hp hpre, List.singleton_append] at ht
        cases t with
        | nil => exact List.nil_prefix
        | cons d t' =>
          have hd : d = b := (List.cons_prefix_cons.mp ht).1
          exact absurd (hd ▸ List.mem_cons_self d t') hb
      · rw [pyReplace_neg [b] hpre] at ht
        cases t with
        | nil => exact List.nil_prefix
        | cons d t' =>
          obtain ⟨hd, ht'⟩ := List.cons_prefix_cons.mp ht
          have hlen : cs.length ≤ n := by
            simp only [List.length_cons] at hs
            omega
          have : t' <+: cs :=
            ih cs t' hlen (fun hmem => hb (List.mem_cons_of_mem d hmem)) ht'
          exact List.cons_prefix_cons.mpr ⟨hd, this⟩

/-- Scanning a concatenation `u ++ w` with a pattern `q` that can match
neither at, into, nor across any position of `u` simply copies `u`. -/
theorem pyReplace_append_skip {q r : List Char} :
    ∀ (u w : List Char),
      (∀ t ∈ u.tails, t ≠ [] → ¬ (t <+: q) ∧ ¬ (q <+: t)) →
      pyReplace q r (u ++ w) = u ++ pyReplace q r w := by
  intro u
  induction u with
  | nil => intro w _; rfl
  | cons c u' ih =>
    intro w H
    have Hc := H (c :: u') ((List.mem_tails _ _).mpr (List.suffix_refl _)) (by simp)
    have hq : ¬ q <+: (c :: (u' ++ w)) := by
      intro hpre
      rcases List.prefix_or_prefix_of_prefix hpre
          (List.prefix_append (c :: u') w) with h | h
      · exact Hc.2 h
      · exact Hc.1 h
    show pyReplace q r (c :: (u' ++ w)) = _
    rw [pyReplace_neg r hq,
      ih w (fun t ht hne =>
        H t ((List.mem_tails _ _).mpr
          (((List.mem_tails _ _).mp ht).trans (List.suffix_cons c u'))) hne)]
    rfl

/-- A replacement whose pattern is arbitrary and whose replacement is a
single character `b` not occurring in `w` cannot create an occurrence of
`w`. -/
theorem occursIn_false_pyReplace {p w : List Char} {b : Char} (hp : p ≠ []) (hw : w ≠ [])
    (hbw : b ∉ w) :
    ∀ (n : Nat) (s : List Char), s.length ≤ n → occursIn w s = false →
      occursIn w (pyReplace p [b] s) = false := by
  intro n
  induction n with
  | zero =>
    intro s hs h
    have hnil : s = [] := List.eq_nil_of_length_eq_zero (Nat.le_zero.mp hs)
    subst hnil
    simpa [pyReplace_nil] using h
  | succ n ih =>
    intro s hs h
    cases s with
    | nil => simpa [pyReplace_nil] using h
    | cons c cs =>
      have hplen : 0 < p.length := List.length_pos.mpr hp
      by_cases hpre : p <+: (c :: cs)
      · rw [pyReplace_pos [b] hp hpre, List.singleton_append]
        simp only [occursIn, Bool.or_eq_false_iff]
        constructor
        · apply isPrefixOf_false_of_not
          intro hx
          cases w with
          | nil => exact hw rfl
          | cons d w' =>
            exact absurd ((List.cons_prefix_cons.mp hx).1 ▸ List.mem_cons_self d w') hbw
        · have hlen : ((c :: cs).drop p.length).length ≤ n := by
            simp only [List.length_drop, List.length_cons]
            simp only [List.length_cons] at hs
            omega
          exact ih _ hlen (occursIn_false_drop _ _ h)
      · rw [pyReplace_neg [b] hpre]
        obtain ⟨h1, h2⟩ := occursIn_cons_false h
        simp only [occursIn, Bool.or_eq_false_iff]
        constructor
        · apply isPrefixOf_false_of_not
          intro hx
          cases w with
          | nil => exact hw rfl
          | cons d w' =>
            obtain ⟨hd, hx'⟩ := List.cons_prefix_cons.mp hx
            have hlen : cs.length ≤ n := by
              simp only [List.length_cons] at hs
              omega
            have : w' <+: cs :=
              pref_of_pref_pyReplace hp n cs w' hlen
                (fun hmem => hbw (List.mem_cons_of_mem d hmem)) hx'
            have : (d :: w') <+: (c :: cs) := List.cons_prefix_cons.mpr ⟨hd, this⟩
            rw [occursIn_of_pref this] at h
            exact Bool.true_eq_false.mp h
        · have hlen : cs.length ≤ n := by
            simp only [List.length_cons] at hs
            omega
          exact ih cs hlen h2

/-- Two `str.replace` passes commute when the patterns are nonempty, the
replacement characters occur in neither pattern, and no nonempty suffix of
either pattern is prefix-comparable with the other pattern (so matches of
the two patterns can neither coincide, overlap, nor be created by the
other replacement). -/
theorem pyReplace_comm {p q : List Char} {a b : Char} (hp : p ≠ []) (hq : q ≠ [])
    (ha : a ∉ q) (hb : b ∉ p)
    (Hpq : ∀ t ∈ p.tails, t ≠ [] → ¬ (t <+: q) ∧ ¬ (q <+: t))
    (Hqp : ∀ t ∈ q.tails, t ≠ [] → ¬ (t <+: p) ∧ ¬ (p <+: t)) :
    ∀ (n : Nat) (s : List Char), s.length ≤ n →
      pyReplace p [a] (pyReplace q [b] s) = pyReplace q [b] (pyReplace p [a] s) := by
  intro n
  induction n with
  | zero =>
    intro s hs
    have hnil : s = [] := List.eq_nil_of_length_eq_zero (Nat.le_zero.mp hs)
    subst hnil
    rfl
  | succ n ih =>
    intro s hs
    cases s with
    | nil => rfl
    | cons c cs =>
      have hplen : 0 < p.length := List.length_pos.mpr hp
      have hqlen : 0 < q.length := List.length_pos.mpr hq
      by_cases hps : p <+: (c :: cs)
      · obtain ⟨w, hw⟩ := hps
        have hwlen : w.length ≤ n := by
          have := congrArg List.length hw
          simp only [List.length_append, List.length_cons] at this
          simp only [List.length_cons] at hs
          omega
        rw [← hw]
        rw [pyReplace_append_skip p w Hpq]
        rw [pyReplace_pos [a] hp (List.prefix_append p (pyReplace q [b] w)),
          List.drop_left]
        rw [pyReplace_pos [a] hp (List.prefix_append p w), List.drop_left]
        rw [List.singleton_append, List.singleton_append]
        have hqa : ¬ q <+: (a :: pyReplace p [a] w) := by
          intro hx
          cases q with
          | nil => exact hq rfl
          | cons e q' =>
            exact absurd ((List.cons_prefix_cons.mp hx).1 ▸ List.mem_cons_self e q') ha
        rw [pyReplace_neg [b] hqa, ih w hwlen]
      · by_cases hqs : q <+: (c :: cs)
        · obtain ⟨w, hw⟩ := hqs
          have hwlen : w.length ≤ n := by
            have := congrArg List.length hw
            simp only [List.length_append, List.length_cons] at this
            simp only [List.length_cons] at hs
            omega
          rw [← hw]
          rw [pyReplace_pos [b] hq (List.prefix_append q w), List.drop_left]
          rw [pyReplace_append_skip q w Hqp]
          rw [pyReplace_pos [b] hq (List.prefix_append q (pyReplace p [a] w)),
            List.drop_left]
          rw [List.singleton_append, List.singleton_append]
          have hpb : ¬ p <+: (b :: pyReplace q [b] w) := by
            intro hx
            cases p with
            | nil => exact hp rfl
            | cons e p' =>
              exact absurd ((List.cons_prefix_cons.mp hx).1 ▸ List.mem_cons_self e p') hb
          rw [pyReplace_neg [a] hpb, ih w hwlen]
        · have hlen : cs.length ≤ n := by
            simp only [List.length_cons] at hs
            omega
          rw [pyReplace_neg [b] hqs, pyReplace_neg [a] hps]
          have hpx : ¬ p <+: (c :: pyReplace q [b] cs) := by
            intro hx
            cases p with
            | nil => exact hp rfl
            | cons e p' =>
              obtain ⟨he, hx'⟩ := List.cons_prefix_cons.mp hx
              have : p' <+: cs :=
                pref_of_pref_pyReplace hq n cs p' hlen
                  (fun hmem => hb (List.mem_cons_of_mem e hmem)) hx'
              exact hps (List.cons_prefix_cons.mpr ⟨he, this⟩)
          have hqx : ¬ q <+: (c :: pyReplace p [a] cs) := by
            intro hx
            cases q with
            | nil => exact hq rfl
            | cons e q' =>
              obtain ⟨he, hx'⟩ := List.cons_prefix_cons.mp hx
              have : q' <+: cs :=
                pref_of_pref_pyReplace hp n cs q' hlen
                  (fun hmem => ha (List.mem_cons_of_mem e hmem)) hx'
              exact hqs (List.cons_prefix_cons.mpr ⟨he, this⟩)
          rw [pyReplace_neg [a] hpx, pyReplace_neg [b] hqx, ih cs hlen]

/-- Strings on which the two hazardous `htmldict` entries have nothing to
do: deleting `</div>` can splice a new token together, and `&nbsp;`→space
can complete a `<br />`; on strings containing neither token every entry
of the table is safe. -/
def cleanS (s : List Char) : Prop :=
  occursIn (chars "</div>") s = false ∧ occursIn (chars "&nbsp;") s = false

/-- On a clean string the `</div>` deletion is the identity. -/
theorem stepTbl_divC {s : List Char} (h : cleanS s) : stepTbl s (chars "</div>", []) = s :=
  pyReplace_of_not_occurs s h.1

/-- On a clean string the `&nbsp;` replacement is the identity. -/
theorem stepTbl_nbsp {s : List Char} (h : cleanS s) : stepTbl s (chars "&nbsp;", [' ']) = s :=
  pyReplace_of_not_occurs s h.2

/-- Every entry of `htmldict` preserves cleanness: the identity entries
trivially, the newline entries because a newline occurs in neither
hazardous token. -/
theorem cleanS_step {s : List Char} (h : cleanS s) {x : List Char × List Char}
    (hx : x ∈ htmldict) : cleanS (stepTbl s x) := by
  simp only [htmldict, List.mem_cons, List.not_mem_nil, or_false] at hx
  rcases hx with rfl | rfl | rfl | rfl | rfl
  · exact ⟨occursIn_false_pyReplace (by decide) (by decide) (by decide) s.length s le_rfl h.1,
      occursIn_false_pyReplace (by decide) (by decide) (by decide) s.length s le_rfl h.2⟩
  · exact ⟨occursIn_false_pyReplace (by decide) (by decide) (by decide) s.length s le_rfl h.1,
      occursIn_false_pyReplace (by decide) (by decide) (by decide) s.length s le_rfl h.2⟩
  · exact ⟨occursIn_false_pyReplace (by decide) (by decide) (by decide) s.length s le_rfl h.1,
      occursIn_false_pyReplace (by decide) (by decide) (by decide) s.length s le_rfl h.2⟩
  · rw [stepTbl_divC h]; exact h
  · rw [stepTbl_nbsp h]; exact h

/-- An entry that is the identity on clean strings commutes with every
cleanness-preserving entry. -/
theorem stepTbl_comm_ident {s : List Char} (h : cleanS s) {x y : List Char × List Char}
    (hy : y ∈ htmldict) (hid : ∀ u, cleanS u → stepTbl u x = u) :
    stepTbl (stepTbl s x) y = stepTbl (stepTbl s y) x := by
  rw [hid s h, hid (stepTbl s y) (cleanS_step h hy)]

/-- The `<br>` and `<br />` passes commute on every string. -/
theorem comm_br_br2 (s : List Char) :
    pyReplace (chars "<br>") ['\n'] (pyReplace (chars "<br />") ['\n'] s) =
      pyReplace (chars "<br />") ['\n'] (pyReplace (chars "<br>") ['\n'] s) :=
  pyReplace_comm (by decide) (by decide) (by decide) (by decide) (by decide) (by decide)
    s.length s le_rfl

/-- The `<br>` and `<div>` passes commute on every string. -/
theorem comm_br_div (s : List Char) :
    pyReplace (chars "<br>") ['\n'] (pyReplace (chars "<div>") ['\n'] s) =
      pyReplace (chars "<div>") ['\n'] (pyReplace (chars "<br>") ['\n'] s) :=
  pyReplace_comm (by decide) (by decide) (by decide) (by decide) (by decide) (by decide)
    s.length s le_rfl

/-- The `<br />` and `<div>` passes commute on every string. -/
theorem comm_br2_div (s : List Char) :
    pyReplace (chars "<br />") ['\n'] (pyReplace (chars "<div>") ['\n'] s) =
      pyReplace (chars "<div>") ['\n'] (pyReplace (chars "<br />") ['\n'] s) :=
  pyReplace_comm (by decide) (by decide) (by decide) (by decide) (by decide) (by decide)
    s.length s le_rfl

/-- Any two entries of `htmldict` commute on a clean string. -/
theorem stepTbl_comm {s : List Char} (h : cleanS s) {x y : List Char × List Char}
    (hx : x ∈ htmldict) (hy : y ∈ htmldict) :
    stepTbl (stepTbl s x) y = stepTbl (stepTbl s y) x := by
  have hdivC : ∀ u, cleanS u → stepTbl u (chars "</div>", ([] : List Char)) = u :=
    fun u hu => stepTbl_divC hu
  have hnbsp : ∀ u, cleanS u → stepTbl u (chars "&nbsp;", [' ']) = u :=
    fun u hu => stepTbl_nbsp hu
  have memBr : (chars "<br>", nlL) ∈ htmldict := by simp [htmldict]
  have memBr2 : (chars "<br />", nlL) ∈ htmldict := by simp [htmldict]
  have memDiv : (chars "<div>", nlL) ∈ htmldict := by simp [htmldict]
  have memDivC : (chars "</div>", ([] : List Char)) ∈ htmldict := by simp [htmldict]
  have memNbsp : (chars "&nbsp;", [' ']) ∈ htmldict := by simp [htmldict]
  simp only [htmldict, List.mem_cons, List.not_mem_nil, or_false] at hx hy
  rcases hx with rfl | rfl | rfl | rfl | rfl <;>
    rcases hy with rfl | rfl | rfl | rfl | rfl
  · rfl
  · exact (comm_br_br2 s).symm
  · exact (comm_br_div s).symm
  · exact (stepTbl_comm_ident h memBr hdivC).symm
  · exact (stepTbl_comm_ident h memBr hnbsp).symm
  · exact comm_br_br2 s
  · rfl
  · exact (comm_br2_div s).symm
  · exact (stepTbl_comm_ident h memBr2 hdivC).symm
  · exact (stepTbl_comm_ident h memBr2 hnbsp).symm
  · exact comm_br_div s
  · exact comm_br2_div s
  · rfl
  · exact (stepTbl_comm_ident h memDiv hdivC).symm
  · exact (stepTbl_comm_ident h memDiv hnbsp).symm
  · exact stepTbl_comm_ident h memBr hdivC
  · exact stepTbl_comm_ident h memBr2 hdivC
  · exact stepTbl_comm_ident h memDiv hdivC
  · rfl
  · exact stepTbl_comm_ident h memNbsp hdivC
  · exact stepTbl_comm_ident h memBr hnbsp
  · exact stepTbl_comm_ident h memBr2 hnbsp
  · exact stepTbl_comm_ident h memDiv hnbsp
  · exact stepTbl_comm_ident h memDivC hnbsp
  · rfl

/-- Applying a permutation of (a sub-multiset of) the `htmldict` entries
to a clean string gives the same result in any order. -/
theorem applyTable_perm :
    ∀ {T₁ T₂ : List (List Char × List Char)}, T₁.Perm T₂ →
      (∀ x ∈ T₁, x ∈ htmldict) → ∀ s, cleanS s → applyTable T₁ s = applyTable T₂ s := by
  intro T₁ T₂ hperm
  induction hperm with
  | nil => intro _ s _; rfl
  | cons x hperm ih =>
    intro hmem s hs
    have hx : x ∈ htmldict := hmem x (List.mem_cons_self _ _)
    show applyTable _ (stepTbl s x) = applyTable _ (stepTbl s x)
    exact ih (fun y hy => hmem y (List.mem_cons_of_mem _ hy)) _ (cleanS_step hs hx)
  | swap x y l =>
    intro hmem s hs
    show applyTable l (stepTbl (stepTbl s y) x) = applyTable l (stepTbl (stepTbl s x) y)
    have hx : x ∈ htmldict := hmem x (List.mem_cons_of_mem _ (List.mem_cons_self _ _))
    have hy : y ∈ htmldict := hmem y (List.mem_cons_self _ _)
    rw [stepTbl_comm hs hy hx]
  | trans h₁ h₂ ih₁ ih₂ =>
    intro hmem s hs
    exact (ih₁ hmem s hs).trans (ih₂ (fun x hx => hmem x (h₁.mem_iff.mpr hx)) s hs)

/-! ### Support lemmas for the block trim and the document fold -/

/-- Model of `dropWhile` over a list ending in an element that fails the predicate
keeps that final element. -/
theorem dropWhile_ends (p : List Char → Bool) (xs : List (List Char)) (b : List Char)
    (hb : p b = false) : ∃ zs, (xs ++ [b]).dropWhile p = zs ++ [b] := by
  induction xs with
  | nil => exact ⟨[], by simp [List.dropWhile_cons, hb]⟩
  | cons x xs ih =>
    by_cases hx : p x = true
    · simpa [List.dropWhile_cons, hx] using ih
    · exact ⟨x :: xs, by simp [List.dropWhile_cons, hx]⟩

/-- The trimmed line list never ends with the empty marker. -/
theorem trimTrailingEmpty_getLast (l : List (List Char)) :
    (trimTrailingEmpty l).getLast? ≠ some emptyMarker := by
  unfold trimTrailingEmpty
  rw [List.getLast?_reverse]
  have h := List.head?_dropWhile_not (fun x => x == emptyMarker) l.reverse
  intro hc
  rw [hc] at h
  simp at h

/-- The trim never removes a leading line different from the empty
marker: trimming a list headed by the block-begin marker returns a list
headed by the block-begin marker. -/
theorem trimTrailingEmpty_cons_begin (rest : List (List Char)) :
    ∃ zs, trimTrailingEmpty (beginNote :: rest) = beginNote :: zs := by
  unfold trimTrailingEmpty
  have hb : (beginNote == emptyMarker) = false := by decide
  obtain ⟨zs, hzs⟩ :=
    dropWhile_ends (fun x => x == emptyMarker) rest.reverse beginNote hb
  refine ⟨zs.reverse, ?_⟩
  rw [show (beginNote :: rest).reverse = rest.reverse ++ [beginNote] by simp]
  rw [hzs]
  simp

/-- Trimming a begin marker followed only by empty markers leaves just the
begin marker. -/
theorem trimTrailingEmpty_all_empty (xs : List (List Char))
    (h : ∀ x ∈ xs, x = emptyMarker) :
    trimTrailingEmpty (beginNote :: xs) = [beginNote] := by
  unfold trimTrailingEmpty
  rw [show (beginNote :: xs).reverse = xs.reverse ++ [beginNote] by simp]
  rw [List.dropWhile_append_of_pos
    (fun a ha => by rw [h a (List.mem_reverse.mp ha)]; rfl)]
  rfl

/-- The state of the export loop after processing all records, from an
arbitrary intermediate state. -/
theorem exportFold_go (models : Nat → Model) (opts : Opts) :
    ∀ (records : List Note) (acc : List (List Char)) (m₀ : Option Model),
      List.foldl (fun acc r => (acc.1 ++ [noteStr opts r], some (models r.mid))) (acc, m₀)
          records =
        (acc ++ records.map (noteStr opts),
          match records.getLast? with
          | none => m₀
          | some r => some (models r.mid)) := by
  intro records
  induction records with
  | nil => intro acc m₀; simp
  | cons r rs ih =>
    intro acc m₀
    rw [List.foldl_cons, ih]
    cases rs with
    | nil => simp
    | cons r' rs' =>
      cases h : (r' :: rs').getLast? with
      | none => exact absurd h (by simp)
      | some z => simp [h]

/-- Closed form of the export loop. -/
theorem exportFold_spec (models : Nat → Model) (opts : Opts) (records : List Note) :
    exportFold models opts records =
      (records.map (noteStr opts),
        match records.getLast? with
        | none => none
        | some r => some (models r.mid)) := by
  unfold exportFold
  rw [exportFold_go models opts records [] none]
  simp

/-- Joining with newline separators and appending a final newline is the
concatenation of the newline-terminated pieces. -/
theorem joinSep_nl_append : ∀ (x : List Char) (xs : List (List Char)),
    joinSep nlL (x :: xs) ++ nlL = ((x :: xs).map (fun b => b ++ nlL)).flatten := by
  intro x xs
  induction xs generalizing x with
  | nil => simp [joinSep]
  | cons y ys ih =>
    show (x ++ nlL ++ joinSep nlL (y :: ys)) ++ nlL = _
    rw [List.append_assoc, List.append_assoc, ih y]
    simp

/-- Trimming preserves the first two lines when the second one is not the
empty marker. -/
theorem trimTrailingEmpty_cons₂ (a b : List Char) (hb : (b == emptyMarker) = false)
    (rest : List (List Char)) :
    ∃ zs, trimTrailingEmpty (a :: b :: rest) = a :: b :: zs := by
  unfold trimTrailingEmpty
  rw [show (a :: b :: rest).reverse = rest.reverse ++ [b, a] by simp]
  rw [List.dropWhile_append]
  by_cases hxs : (rest.reverse.dropWhile (fun x => x == emptyMarker)).isEmpty = true
  · refine ⟨[], ?_⟩
    rw [if_pos hxs]
    simp [List.dropWhile_cons, hb]
  · refine ⟨(rest.reverse.dropWhile (fun x => x == emptyMarker)).reverse, ?_⟩
    rw [if_neg hxs]
    simp

/-- The identifier line is never the empty field marker (it carries no
indentation, so it starts with a backslash, not a space). -/
theorem idLine_ne_emptyMarker (noteId : Nat) : (idLine noteId == emptyMarker) = false := by
  rw [beq_eq_false_iff_ne]
  intro h
  have h1 : (idLine noteId).head? = some '\\' := rfl
  rw [h] at h1
  exact absurd (h1.trans rfl) (by decide)

/-! ### Claim theorems -/

/-- Claim C1, counterexample: the claim asserts that the content of a
`[latex]` field is passed through unchanged (no tag rewriting or
angle-bracket stripping), but the export loop feeds `[latex]` fields
through `convert_html_to_latex` too: on the field
`[latex]a<b>x</b>[/latex]` the rendered line is
`    \xfield{a\textbf{x}}`, not `    \xfield{a<b>x</b>}`. -/
theorem c1_counterexample :
    renderField (chars "[latex]a<b>x</b>[/latex]") =
      chars "    \\xfield\x7ba\\textbf\x7bx\x7d\x7d" ∧
    renderField (chars "[latex]a<b>x</b>[/latex]") ≠
      chars "    \\xfield\x7ba<b>x</b>\x7d" := by
  exact ⟨by decide, by decide⟩

/-- Claim C1 (amended): a field containing the `[latex]` sentinel after
line-break normalisation is treated as a verbatim field (there is no other
hint in the code); the sentinels, with newlines touching them, are
stripped by `convert_html_to_latex`, which is applied to the field — so
the content additionally undergoes entity decoding, tag rewriting and
stripping of remaining angle-bracket tags rather than passing through
unchanged; when the converted content is a single line it is wrapped as
`    \xfield{...}`, and on the concrete input `[latex]\alpha[/latex]`
(which contains no markup) the output is exactly `    \xfield{\alpha}`. -/
theorem c1_amended_verbatim_field (f : List Char)
    (h1 : occursIn latexTok (replace_line_breaks f) = true)
    (h2 : (convert_html_to_latex (replace_line_breaks f)).contains '\n' = false) :
    renderField f =
      TAB ++ chars "\\xfield\x7b" ++ convert_html_to_latex (replace_line_breaks f) ++
        chars "\x7d" ∧
    renderField (chars "[latex]\\alpha[/latex]") = chars "    \\xfield\x7b\\alpha\x7d" := by
  constructor
  · simp only [renderField, h1, h2, if_true, Bool.false_eq_true, if_false]
    rfl
  · decide

/-- Claim C1 witness: the amended theorem applied at
`[latex]\alpha[/latex]`. -/
theorem c1_witness :
    renderField (chars "[latex]\\alpha[/latex]") =
      TAB ++ chars "\\xfield\x7b" ++
        convert_html_to_latex (replace_line_breaks (chars "[latex]\\alpha[/latex]")) ++
        chars "\x7d" :=
  (c1_amended_verbatim_field (chars "[latex]\\alpha[/latex]") (by decide) (by decide)).1

/-- Claim C2: a field whose normalised text contains neither the `[latex]`
sentinel nor a newline is rendered as exactly the one-line plain marker
`    \xplain{...}` with the normalised text embedded literally — the
rich-text conversion, entity decoding and character escaping are all
skipped on this branch. -/
theorem c2_single_line_plain (f : List Char)
    (h1 : occursIn latexTok (replace_line_breaks f) = false)
    (h2 : (replace_line_breaks f).contains '\n' = false) :
    renderField f = TAB ++ chars "\\xplain\x7b" ++ replace_line_breaks f ++ chars "\x7d" := by
  simp only [renderField, h1, h2, Bool.false_eq_true, if_false]
  rfl

/-- Claim C2 witness: on `Hello & World` the ampersand is neither decoded
nor escaped. -/
theorem c2_witness :
    renderField (chars "Hello & World") =
      TAB ++ chars "\\xplain\x7b" ++ replace_line_breaks (chars "Hello & World") ++
        chars "\x7d" ∧
    renderField (chars "Hello & World") = chars "    \\xplain\x7bHello & World\x7d" :=
  ⟨c2_single_line_plain (chars "Hello & World") (by decide) (by decide), by decide⟩

/-- Claim C3, counterexample: the claim's literal input
`"line1<b>bold</b>\nline2"` carries a literal newline, but line-break
normalisation deletes literal newlines first, so the field becomes a
single line and is rendered as an unconverted `\xplain` line, not as a
multi-line plain block. -/
theorem c3_counterexample :
    renderField (chars "line1<b>bold</b>\nline2") =
      chars "    \\xplain\x7bline1<b>bold</b>line2\x7d" ∧
    (chars "    \\begin\x7bplain\x7d").isPrefixOf
      (renderField (chars "line1<b>bold</b>\nline2")) = false := by
  exact ⟨by decide, by decide⟩

/-- Claim C3 (amended): a field with no verbatim sentinel whose normalised
text contains an internal newline (one produced by a break token such as
`<br>`, since literal newlines are deleted by normalisation) is rendered
as a multi-line plain block of the converted content; in particular
`line1<b>bold</b><br>line2` renders as a `\begin{plain}` block containing
`line1\textbf{bold}` and `line2` as separate doubly indented lines. -/
theorem c3_amended_multiline_bold (f : List Char)
    (h1 : occursIn latexTok (replace_line_breaks f) = false)
    (h2 : (replace_line_breaks f).contains '\n' = true) :
    renderField f =
      TAB ++ chars "\\begin\x7bplain\x7d" ++ nlL ++
        indentBody (strip_new_lines (convert_html_to_latex (replace_line_breaks f))) ++
        nlL ++ TAB ++ chars "\\end\x7bplain\x7d" ∧
    renderField (chars "line1<b>bold</b><br>line2") =
      chars "    \\begin\x7bplain\x7d\n        line1\\textbf\x7bbold\x7d\n        line2\n    \\end\x7bplain\x7d" := by
  constructor
  · simp only [renderField, h1, h2, Bool.false_eq_true, if_false, if_true]
    rfl
  · decide

/-- Claim C3 witness: the amended theorem applied at
`line1<b>bold</b><br>line2`. -/
theorem c3_witness :
    renderField (chars "line1<b>bold</b><br>line2") =
      TAB ++ chars "\\begin\x7bplain\x7d" ++ nlL ++
        indentBody (strip_new_lines (convert_html_to_latex
          (replace_line_breaks (chars "line1<b>bold</b><br>line2")))) ++
        nlL ++ TAB ++ chars "\\end\x7bplain\x7d" :=
  (c3_amended_multiline_bold (chars "line1<b>bold</b><br>line2") (by decide) (by decide)).1

/-- Claim C4: the trailing trim only ever removes lines equal to the empty
marker `    \xplain{}` from the end of the line list — after the trim the
list never ends with the empty marker; a list headed by the block-begin
marker keeps its begin marker (the loop terminates there, it never
underflows); and a record all of whose fields render empty, with
identifier and tags excluded, assembles to a block consisting of exactly
the begin and end markers with no intermediate lines. -/
theorem c4_trailing_trim :
    (∀ l : List (List Char), (trimTrailingEmpty l).getLast? ≠ some emptyMarker) ∧
    (∀ rest : List (List Char),
      ∃ zs, trimTrailingEmpty (beginNote :: rest) = beginNote :: zs) ∧
    (∀ (opts : Opts) (n : Note), opts.include_guid = false → opts.include_tags = false →
      (∀ f ∈ n.flds, renderField f = emptyMarker) →
      noteStr opts n = beginNote ++ nlL ++ endNoteLine) := by
  refine ⟨trimTrailingEmpty_getLast, trimTrailingEmpty_cons_begin, ?_⟩
  intro opts n hg ht h
  have hmap : ∀ x ∈ n.flds.map renderField, x = emptyMarker := by
    intro x hx
    obtain ⟨f, hf, rfl⟩ := List.mem_map.mp hx
    exact h f hf
  simp only [noteStr, noteLines, hg, ht, Bool.false_eq_true, if_false, Bool.false_and,
    List.singleton_append]
  rw [trimTrailingEmpty_all_empty _ hmap]
  rfl

/-- Claim C4 witness: the trim applied to a two-line list ending in the
empty marker, and the all-empty-fields block for a record with two empty
fields. -/
theorem c4_witness :
    (trimTrailingEmpty [beginNote, emptyMarker]).getLast? ≠ some emptyMarker ∧
    noteStr ⟨false, false⟩ ⟨[], 7, [[], []], [], 3⟩ = beginNote ++ nlL ++ endNoteLine :=
  ⟨c4_trailing_trim.1 [beginNote, emptyMarker],
    c4_trailing_trim.2.2 ⟨false, false⟩ ⟨[], 7, [[], []], [], 3⟩ rfl rfl (by decide)⟩

/-- Claim C5: for a nonempty record sequence the produced document is the
encoding-declaration line, the preamble (of the schema looked up for the
record processed last) followed by a newline, the newline-terminated
blocks in fetch order, and the postamble; the reported count is exactly
the number of records.  The document is built wholly in memory and the
embedding returns it as the single output value, mirroring the single
write that follows assembly. -/
theorem c5_document_framing (models : Nat → Model) (opts : Opts) (records : List Note)
    (h : records ≠ []) :
    export_note_latex models opts records =
      .ok (encLine ++ (models (records.getLast h).mid).latexPre ++ nlL ++
        (records.map (fun r => noteStr opts r ++ nlL)).flatten ++
        (models (records.getLast h).mid).latexPost,
        records.length) := by
  unfold export_note_latex
  rw [exportFold_spec, List.getLast?_eq_getLast records h]
  show Except.ok _ = Except.ok _
  obtain ⟨r, rs, rfl⟩ := List.exists_cons_of_ne_nil h
  have key : joinSep nlL (List.map (noteStr opts) (r :: rs)) ++
      (nlL ++ (models ((r :: rs).getLast h).mid).latexPost) =
      ((r :: rs).map (fun x => noteStr opts x ++ nlL)).flatten ++
        (models ((r :: rs).getLast h).mid).latexPost := by
    rw [List.map_cons, ← List.append_assoc, joinSep_nl_append]
    simp [Function.comp_def]
  simp only [Prod.mk.injEq, Except.ok.injEq]
  constructor
  · simp only [List.append_assoc]
    rw [key]
  · simp

/-- Claim C5 witness: a one-record export with a constant schema. -/
theorem c5_witness :
    export_note_latex (fun _ => ⟨chars "PRE", chars "POST"⟩) ⟨false, false⟩
      [⟨[], 1, [[]], [], 4⟩] =
      .ok (encLine ++ chars "PRE" ++ nlL ++
        (([⟨[], 1, [[]], [], 4⟩] : List Note).map
          (fun r => noteStr ⟨false, false⟩ r ++ nlL)).flatten ++
        chars "POST", 1) := by
  have h := c5_document_framing (fun _ => ⟨chars "PRE", chars "POST"⟩) ⟨false, false⟩
    [⟨[], 1, [[]], [], 4⟩] (by simp)
  simpa using h

/-- Claim C6, counterexample: the five `htmldict` replacements do not
commute for every input — on `<b</div>r>` (which contains no literal
newline) the code's order first fails to find `<br>` and then deletes
`</div>`, leaving `<br>`, while an order that deletes `</div>` first
creates a `<br>` which is then turned into a newline. -/
theorem c6_counterexample :
    htmldict.reverse.Perm htmldict ∧
    applyTable htmldict.reverse (pyReplace nlL [] (chars "<b</div>r>")) ≠
      replace_line_breaks (chars "<b</div>r>") :=
  ⟨List.reverse_perm htmldict, by decide⟩

/-- Claim C6 (amended): after literal newlines are deleted, the five
token replacements of `htmldict` commute on every input that contains
neither `</div>` nor `&nbsp;` — on such strings the two deleting/splicing
entries are inert and the three newline replacements are mutually
non-overlapping and non-creating — but not on every input, because
deleting `</div>` (or replacing `&nbsp;` by a space) can splice a new
token occurrence together. -/
theorem c6_replacement_order (T : List (List Char × List Char)) (hT : T.Perm htmldict)
    (s : List Char)
    (h1 : occursIn (chars "</div>") (pyReplace nlL [] s) = false)
    (h2 : occursIn (chars "&nbsp;") (pyReplace nlL [] s) = false) :
    applyTable T (pyReplace nlL [] s) = replace_line_breaks s :=
  applyTable_perm hT (fun _ hx => hT.subset hx) _ ⟨h1, h2⟩

/-- Claim C6 witness: the amended theorem applied to the reversed table on
a string free of the two hazardous tokens. -/
theorem c6_witness :
    applyTable htmldict.reverse (pyReplace nlL [] (chars "a<br>b<div>c&amp;d")) =
      replace_line_breaks (chars "a<br>b<div>c&amp;d") :=
  c6_replacement_order htmldict.reverse (List.reverse_perm htmldict)
    (chars "a<br>b<div>c&amp;d") (by decide) (by decide)

/-- Claim C7: when identifier inclusion is enabled the second line of the
block is the identifier line — the numeric note id rendered through
`escape_latex_chars` and wrapped as an unindented `\xplain` field, never
through the rich-text pipeline; identifier `123` yields `\xplain{123}`;
and the escape helper is not applied to field content: a single-line field
`a_b` is embedded with its underscore unescaped, although the helper would
have escaped it. -/
theorem c7_identifier_escaping :
    (∀ (opts : Opts) (n : Note), opts.include_guid = true →
      (noteLines opts n)[1]? = some (idLine n.noteId)) ∧
    idLine 123 = chars "\\xplain\x7b123\x7d" ∧
    escape_latex_chars (chars "123") = chars "123" ∧
    renderField (chars "a_b") = chars "    \\xplain\x7ba_b\x7d" ∧
    escape_latex_chars (chars "a_b") = chars "a\\_b" := by
  refine ⟨?_, by decide, by decide, by decide, by decide⟩
  intro opts n hg
  unfold noteLines
  simp only [hg, if_true]
  obtain ⟨zs, hzs⟩ := trimTrailingEmpty_cons₂ beginNote (idLine n.noteId)
    (idLine_ne_emptyMarker n.noteId) (n.flds.map renderField)
  rw [show ([beginNote, idLine n.noteId] ++ n.flds.map renderField) =
    beginNote :: idLine n.noteId :: n.flds.map renderField from rfl]
  rw [hzs]
  by_cases hc : (opts.include_tags && !(pyStrip n.tags).isEmpty) = true
  · rw [if_pos hc]
    simp
  · rw [if_neg hc]
    simp

/-- Claim C8: the query builder returns a query for exactly the two
supported criterion variants and fails immediately with the descriptive
error for every other variant — no silent fallback. -/
theorem c8_db_query_fail_fast :
    (∀ limit : ExportLimit, supportedLimit limit = false →
      db_query limit = .error dbErr) ∧
    (∀ limit : ExportLimit, supportedLimit limit = true → ∃ q, db_query limit = .ok q) := by
  constructor
  · intro limit h
    cases limit with
    | deckIdLimit d => simp [supportedLimit] at h
    | noteIdsLimit ids => simp [supportedLimit] at h
    | otherLimit => rfl
  · intro limit h
    cases limit with
    | deckIdLimit d => exact ⟨_, rfl⟩
    | noteIdsLimit ids => exact ⟨_, rfl⟩
    | otherLimit => simp [supportedLimit] at h

/-- Claim C8 witness: an unsupported criterion errs, a deck-id criterion
returns a query. -/
theorem c8_witness :
    db_query .otherLimit = .error dbErr ∧ ∃ q, db_query (.deckIdLimit 1) = .ok q :=
  ⟨c8_db_query_fail_fast.1 .otherLimit rfl, c8_db_query_fail_fast.2 (.deckIdLimit 1) rfl⟩

/-- Claim C9: for a nonempty record sequence the schema variable rebound
on every loop iteration ends up holding the schema of the record processed
last, and the document emits that schema's preamble and postamble exactly
once each — also when the records span several schemas. -/
theorem c9_last_record_schema (models : Nat → Model) (opts : Opts) (records : List Note)
    (h : records ≠ []) :
    (exportFold models opts records).2 = some (models ((records.getLast h)).mid) ∧
    ∃ body : List Char,
      export_note_latex models opts records =
        .ok (encLine ++ (models (records.getLast h).mid).latexPre ++ nlL ++ body ++
          (models (records.getLast h).mid).latexPost, records.length) := by
  constructor
  · rw [exportFold_spec, List.getLast?_eq_getLast records h]
  · refine ⟨joinSep nlL (records.map (noteStr opts)) ++ nlL, ?_⟩
    unfold export_note_latex
    rw [exportFold_spec, List.getLast?_eq_getLast records h]
    show Except.ok _ = Except.ok _
    simp only [Prod.mk.injEq, Except.ok.injEq]
    constructor
    · simp [List.append_assoc]
    · simp

/-- Claim C9 witness: with two records of different schema ids the final
schema is the second record's. -/
theorem c9_witness :
    (exportFold (fun mid => ⟨natStr mid, natStr mid⟩) ⟨false, false⟩
      [⟨[], 1, [], [], 10⟩, ⟨[], 2, [], [], 20⟩]).2 = some ⟨natStr 20, natStr 20⟩ := by
  have h := (c9_last_record_schema (fun mid => ⟨natStr mid, natStr mid⟩) ⟨false, false⟩
    [⟨[], 1, [], [], 10⟩, ⟨[], 2, [], [], 20⟩] (by simp)).1
  simpa using h

/-- Claim C10: on an empty record sequence the export fails — the schema
variable is bound only inside the loop, so building the document
dereferences an unbound variable and no output is produced — while for
every nonempty sequence it succeeds with a document and a count. -/
theorem c10_empty_unbound :
    (∀ (models : Nat → Model) (opts : Opts),
      export_note_latex models opts [] = .error unboundErr) ∧
    (∀ (models : Nat → Model) (opts : Opts) (records : List Note), records ≠ [] →
      ∃ doc n, export_note_latex models opts records = .ok (doc, n)) := by
  constructor
  · intro models opts; rfl
  · intro models opts records h
    refine ⟨encLine ++ (models (records.getLast h).mid).latexPre ++ nlL ++
      joinSep nlL (records.map (noteStr opts)) ++ nlL ++
      (models (records.getLast h).mid).latexPost, records.length, ?_⟩
    unfold export_note_latex
    rw [exportFold_spec, List.getLast?_eq_getLast records h]
    show Except.ok _ = Except.ok _
    simp

/-- Claim C10 witness: a singleton record list succeeds. -/
theorem c10_witness :
    ∃ doc n, export_note_latex (fun _ => ⟨[], []⟩) ⟨false, false⟩
      [⟨[], 1, [], [], 0⟩] = .ok (doc, n) :=
  c10_empty_unbound.2 (fun _ => ⟨[], []⟩) ⟨false, false⟩ [⟨[], 1, [], [], 0⟩] (by simp)

/-- Claim C7 witness: the identifier-line theorem applied to a record with
id `123`. -/
theorem c7_witness :
    (noteLines ⟨true, false⟩ ⟨[], 123, [], [], 0⟩)[1]? = some (idLine 123) :=
  c7_identifier_escaping.1 ⟨true, false⟩ ⟨[], 123, [], [], 0⟩ rfl
